import Mathlib

/-
Shallow embedding of the TopologicalTaskRunner of rag_kit
(src/rag_kit/topological_task_runner.py), together with proofs about it.

Modelling conventions:
- Python dicts are insertion-ordered association lists without duplicate
  keys.  Updating an existing key rewrites the entry in place, a new key is
  appended, so iteration order matches CPython.
- Python exceptions are the PyError type; an expression that can raise is
  given the type Except PyError.
- graphlib.TopologicalSorter over a predecessor map is modelled by Kahn
  waves over the node set consisting of the map keys plus every mentioned
  predecessor; the prepare-time cycle check is the Kahn saturation test
  hasCycle.  In arun, ts.done is called on every ready name of a wave
  (successes and failures alike), exactly as in the source.
- A wave whose argument construction raises executes none of its tasks:
  the futures scheduled by ensure_future are never driven, because the
  synchronous KeyError propagates out of the arun coroutine before the
  event loop regains control.  A wave is therefore modelled atomically.
- Every executed invocation is recorded in a log entry holding the task
  name, the dependency list used for binding, and the contents of
  task_results at launch time.
-/

/-- A Python runtime value, as far as the runner inspects it:
task results, arguments, and the nested aggregate built by format_results. -/
inductive Value where
  | int : Int → Value
  | str : String → Value
  | dict : List (String × Value) → Value

/-- A Python dict with string keys, as an insertion-ordered association list. -/
abbrev Dict (α : Type) : Type := List (String × α)

/-- The exceptions the runner raises or stores. -/
inductive PyError where
  | keyError : String → PyError
  | valueError : String → PyError
  | typeError : String → PyError
  | cycleError : PyError
  | taskError : String → PyError

/-- A unit of work: receives positional arguments and keyword arguments,
and either returns a value or raises. -/
abbrev TaskFun : Type := List Value → Dict Value → Except PyError Value

/-- TPTask from the source: the caller-facing task specification.
funcName stands for func.__name__. -/
structure TPTask where
  name : Option String
  funcName : String
  func : TaskFun
  deps : List String
  args : List Value
  kwargs : Dict Value
  res_key : Option String

/-- The mutable instance state of TopologicalTaskRunner:
_failed_tasks, task_results and task_errors. -/
structure RunnerState where
  failedTasks : Dict TPTask
  taskResults : Dict Value
  taskErrors : Dict PyError

/-- d[key] as a lookup: the value at key, if present. -/
def Dict.find? {α : Type} : Dict α → String → Option α
  | [], _ => none
  | (k, v) :: rest, key => if k = key then some v else Dict.find? rest key

/-- key in d. -/
def Dict.containsKey {α : Type} (d : Dict α) (key : String) : Bool :=
  (Dict.find? d key).isSome

/-- d[key] = v as an update: rewrite an existing entry in place, append a
new one, matching CPython dict insertion order. -/
def Dict.insert {α : Type} (d : Dict α) (key : String) (v : α) : Dict α :=
  if Dict.containsKey d key then
    d.map (fun p => if p.1 = key then (key, v) else p)
  else d ++ [(key, v)]

/-- d.pop(key, None). -/
def Dict.erase {α : Type} (d : Dict α) (key : String) : Dict α :=
  d.filter (fun p => p.1 != key)

/-- list(d.keys()). -/
def Dict.keys {α : Type} (d : Dict α) : List String :=
  d.map (fun p => p.1)

/-- The dict literal with double star unpacking of a then b: entries of a, then entries of
b applied as updates, so b wins on key collision. -/
def dictMerge {α : Type} (a b : Dict α) : Dict α :=
  b.foldl (fun acc p => Dict.insert acc p.1 p.2) a

/-- The dict comprehension binding each dep to task_results[dep] in
_calculate_ready_tasks; a missing dep raises KeyError. -/
def bindDepsAux (results : Dict Value) : Dict Value → List String → Except PyError (Dict Value)
  | acc, [] => Except.ok acc
  | acc, dep :: rest =>
    match Dict.find? results dep with
    | none => Except.error (PyError.keyError dep)
    | some v => bindDepsAux results (Dict.insert acc dep v) rest

def bindDeps (results : Dict Value) (deps : List String) : Except PyError (Dict Value) :=
  bindDepsAux results [] deps

/-- One scheduled execution, as assembled by _calculate_ready_tasks for a
single ready name. -/
structure Invocation where
  name : String
  func : TaskFun
  deps : List String
  args : List Value
  kwargs : Dict Value

/-- The body of the for loop of _calculate_ready_tasks for one ready name:
look up the function, read the dependency list, bind dependency results,
and merge in the task's declared kwargs (task kwargs win). -/
def prepareOne (st : RunnerState) (tfm : Dict TaskFun) (tdm : Dict (List String))
    (tm : Dict TPTask) (nm : String) : Except PyError Invocation :=
  match Dict.find? tfm nm with
  | none => Except.error (PyError.keyError nm)
  | some func =>
    match bindDeps st.taskResults ((Dict.find? tdm nm).getD []) with
    | Except.error e => Except.error e
    | Except.ok depResults =>
      match Dict.find? tm nm with
      | none => Except.error (PyError.keyError nm)
      | some task =>
        Except.ok (Invocation.mk nm func ((Dict.find? tdm nm).getD []) task.args
          (dictMerge depResults task.kwargs))

/-- _calculate_ready_tasks over a whole wave; the first raise aborts the
wave before anything runs. -/
def prepareWave (st : RunnerState) (tfm : Dict TaskFun) (tdm : Dict (List String))
    (tm : Dict TPTask) : List String → Except PyError (List Invocation)
  | [] => Except.ok []
  | nm :: rest =>
    match prepareOne st tfm tdm tm nm with
    | Except.error e => Except.error e
    | Except.ok inv =>
      match prepareWave st tfm tdm tm rest with
      | Except.error e => Except.error e
      | Except.ok invs => Except.ok (inv :: invs)

/-- asyncio.gather with return_exceptions=True over the wave: run every
invocation, capturing per-task failures as values.  -/
def execInvs (invs : List Invocation) : List (String × Except PyError Value) :=
  invs.map (fun inv => (inv.name, inv.func inv.args inv.kwargs))

/-- The loop body of _set_results for one (name, result) pair: a failure
is stored in _failed_tasks and task_errors, a success is stored in
task_results and removes the name from _failed_tasks and task_errors.
The failure branch does not touch task_results, exactly as in the source. -/
def recordOne (st : RunnerState) (nm : String) (task : TPTask)
    (outcome : Except PyError Value) : RunnerState :=
  match outcome with
  | Except.error e =>
    RunnerState.mk (Dict.insert st.failedTasks nm task) st.taskResults
      (Dict.insert st.taskErrors nm e)
  | Except.ok v =>
    RunnerState.mk (Dict.erase st.failedTasks nm) (Dict.insert st.taskResults nm v)
      (Dict.erase st.taskErrors nm)

/-- _set_results: fold recordOne over the zipped names and results; the
task_map indexing can raise, in which case the partially updated state is
kept (instance attributes survive the raise). -/
def setResults (st : RunnerState) (tm : Dict TPTask) :
    List (String × Except PyError Value) → RunnerState × Option PyError
  | [] => (st, none)
  | (nm, outcome) :: rest =>
    match Dict.find? tm nm with
    | none => (st, some (PyError.keyError nm))
    | some task => setResults (recordOne st nm task outcome) tm rest

/-- Append an element unless already present; used to collect the node set
of the TopologicalSorter in insertion order. -/
def addUnique (l : List String) (x : String) : List String :=
  if l.contains x then l else l ++ [x]

def allNodesAux : List String → Dict (List String) → List String
  | acc, [] => acc
  | acc, (k, deps) :: rest => allNodesAux (deps.foldl addUnique (addUnique acc k)) rest

/-- Every node known to the TopologicalSorter: the keys of the predecessor
map plus every mentioned predecessor, in first-appearance order. -/
def allNodes (tdm : Dict (List String)) : List String :=
  allNodesAux [] tdm

/-- get_ready: the nodes not yet done all of whose predecessors are done. -/
def readyWave (tdm : Dict (List String)) (done : List String) : List String :=
  (allNodes tdm).filter
    (fun n => !(done.contains n) && ((Dict.find? tdm n).getD []).all (fun m => done.contains m))

/-- Kahn saturation: repeatedly mark every ready node done. -/
def kahnSaturate (tdm : Dict (List String)) : Nat → List String → List String
  | 0, done => done
  | fuel + 1, done =>
    let ready := readyWave tdm done
    if ready.isEmpty then done else kahnSaturate tdm fuel (done ++ ready)

/-- The prepare-time cycle check: some node never becomes ready. -/
def hasCycle (tdm : Dict (List String)) : Bool :=
  !((allNodes tdm).all (fun n => (kahnSaturate tdm (allNodes tdm).length []).contains n))

/-- One entry of the execution log: a task that was actually launched,
the dependency list bound for it, and task_results at launch time. -/
structure LogEntry where
  name : String
  deps : List String
  resultsAtStart : Dict Value

structure WaveOutcome where
  state : RunnerState
  log : List LogEntry
  err : Option PyError

/-- The while ts.is_active() loop of arun.  Fuel bounds the number of
waves; a run over n nodes performs at most n nonempty waves, so fuel n is
exact.  ts.done is applied to every ready name, successes and failures
alike, as in the source. -/
def runWaves (tdm : Dict (List String)) (tfm : Dict TaskFun) (tm : Dict TPTask) :
    Nat → RunnerState → List String → List LogEntry → WaveOutcome
  | 0, st, _, log => WaveOutcome.mk st log none
  | fuel + 1, st, done, log =>
    let ready := readyWave tdm done
    if ready.isEmpty then WaveOutcome.mk st log none
    else
      match prepareWave st tfm tdm tm ready with
      | Except.error e => WaveOutcome.mk st log (some e)
      | Except.ok invs =>
        let log' := log ++ invs.map (fun inv => LogEntry.mk inv.name inv.deps st.taskResults)
        match setResults st tm (execInvs invs) with
        | (st', some e) => WaveOutcome.mk st' log' (some e)
        | (st', none) => runWaves tdm tfm tm fuel st' (done ++ ready) log'

/-- task.name or func.__name__: the falsy values None and the empty string
both fall back to the function name. -/
def resolveName (t : TPTask) : String :=
  match t.name with
  | none => t.funcName
  | some s => if s = "" then t.funcName else s

/-- _map_tasks_functions_and_dependencies: build the three name-keyed maps,
raising ValueError on a duplicate resolved name. -/
def mapTasksAux : Dict TPTask → Dict TaskFun → Dict (List String) → List TPTask →
    Except PyError (Dict TPTask × Dict TaskFun × Dict (List String))
  | tm, tfm, tdm, [] => Except.ok (tm, tfm, tdm)
  | tm, tfm, tdm, task :: rest =>
    let nm := resolveName task
    if Dict.containsKey tm nm then Except.error (PyError.valueError nm)
    else mapTasksAux (Dict.insert tm nm task) (Dict.insert tfm nm task.func)
      (Dict.insert tdm nm task.deps) rest

def mapTasks (tasks : List TPTask) :
    Except PyError (Dict TPTask × Dict TaskFun × Dict (List String)) :=
  mapTasksAux [] [] [] tasks

/-- The setdefault walk of format_results: descend along all but the last
path segment, creating empty sub-dicts, then assign the last segment.
A non-dict value met along the walk raises, as setdefault would hand back
a value without an item assignment protocol. -/
def setPath : Dict Value → List String → Value → Except PyError (Dict Value)
  | fr, [], _ => Except.ok fr
  | fr, [k], v => Except.ok (Dict.insert fr k v)
  | fr, k :: k2 :: rest, v =>
    match Dict.find? fr k with
    | some (Value.dict sub) =>
      match setPath sub (k2 :: rest) v with
      | Except.error e => Except.error e
      | Except.ok sub' => Except.ok (Dict.insert fr k (Value.dict sub'))
    | some _ => Except.error (PyError.typeError k)
    | none =>
      match setPath [] (k2 :: rest) v with
      | Except.error e => Except.error e
      | Except.ok sub' => Except.ok (Dict.insert fr k (Value.dict sub'))

/-- str.split of the result key on the dot separator: every occurrence of
the dot starts a new segment, and consecutive dots yield empty segments,
as in Python. -/
def splitDotAux : List Char → List Char → List String
  | [], cur => [String.mk cur.reverse]
  | c :: rest, cur =>
    if c = '.' then String.mk cur.reverse :: splitDotAux rest []
    else splitDotAux rest (c :: cur)

def splitDot (s : String) : List String :=
  splitDotAux s.data []

/-- The loop body of format_results for one (name, result) item: a falsy
res_key (None or the empty string) contributes nothing, otherwise the key
is split on the dot and the value written along the path. -/
def formatStep (tm : Dict TPTask) (fr : Dict Value) (nm : String) (v : Value) :
    Except PyError (Dict Value) :=
  match Dict.find? tm nm with
  | none => Except.error (PyError.keyError nm)
  | some task =>
    match task.res_key with
    | none => Except.ok fr
    | some key => if key = "" then Except.ok fr else setPath fr (splitDot key) v

def formatResultsAux (tm : Dict TPTask) : Dict Value → Dict Value → Except PyError (Dict Value)
  | fr, [] => Except.ok fr
  | fr, (nm, v) :: rest =>
    match formatStep tm fr nm v with
    | Except.error e => Except.error e
    | Except.ok fr' => formatResultsAux tm fr' rest

/-- format_results: fold the per-item step over task_results in insertion
order, starting from an empty aggregate. -/
def formatResults (st : RunnerState) (tm : Dict TPTask) : Except PyError (Dict Value) :=
  formatResultsAux tm [] st.taskResults

/-- The observable outcome of one arun call: the instance state when the
call returns or raises, the log of launched tasks, and either the
formatted aggregate or the exception that propagated. -/
structure RunOutcome where
  state : RunnerState
  log : List LogEntry
  result : Except PyError (Dict Value)

/-- arun: build the maps (ValueError on duplicates), prepare the sorter
(CycleError on a cycle), run the waves, then format the results. -/
def arun (st : RunnerState) (tasks : List TPTask) : RunOutcome :=
  match mapTasks tasks with
  | Except.error e => RunOutcome.mk st [] (Except.error e)
  | Except.ok (tm, tfm, tdm) =>
    if hasCycle tdm then RunOutcome.mk st [] (Except.error PyError.cycleError)
    else
      match runWaves tdm tfm tm (allNodes tdm).length st [] [] with
      | WaveOutcome.mk st' log (some e) => RunOutcome.mk st' log (Except.error e)
      | WaveOutcome.mk st' log none =>
        match formatResults st' tm with
        | Except.error e => RunOutcome.mk st' log (Except.error e)
        | Except.ok fr => RunOutcome.mk st' log (Except.ok fr)

/-- reset: clear _failed_tasks, task_results and task_errors. -/
def resetRunner (_st : RunnerState) : RunnerState :=
  RunnerState.mk [] [] []

/-- A fresh TopologicalTaskRunner instance. -/
def initState : RunnerState :=
  RunnerState.mk [] [] []

/-- failed_tasks: the stored specs of every name recorded in errors. -/
def failedTasksList (st : RunnerState) : List TPTask :=
  st.failedTasks.map (fun p => p.2)

/-- One public operation on a runner instance. -/
inductive RunnerOp where
  | runTasks : List TPTask → RunnerOp
  | resetOp : RunnerOp

def applyOp (st : RunnerState) : RunnerOp → RunnerState
  | RunnerOp.runTasks tasks => (arun st tasks).state
  | RunnerOp.resetOp => resetRunner st

def applyOps (st : RunnerState) (ops : List RunnerOp) : RunnerState :=
  ops.foldl applyOp st

/-
Concrete task sets used by the example-level claims.  The four-task set
follows the spec's example: t1 returns 1, t2 returns its dependency value
plus one, t3 raises, t4 depends on both t2 and t3.
-/

def exFunc1 : TaskFun := fun _ _ => Except.ok (Value.int 1)

def exFunc2 : TaskFun := fun _ kwargs =>
  match Dict.find? kwargs "t1" with
  | some (Value.int n) => Except.ok (Value.int (n + 1))
  | _ => Except.error (PyError.taskError "t2 missing dependency value")

def exFunc3 : TaskFun := fun _ _ => Except.error (PyError.taskError "boom")

def exFunc4 : TaskFun := fun _ _ => Except.ok (Value.int 4)

def exTask1 : TPTask := TPTask.mk (some "t1") "work1" exFunc1 [] [] [] none

def exTask2 : TPTask := TPTask.mk (some "t2") "work2" exFunc2 ["t1"] [] [] none

def exTask3 : TPTask := TPTask.mk (some "t3") "work3" exFunc3 ["t1"] [] [] none

def exTask4 : TPTask := TPTask.mk (some "t4") "work4" exFunc4 ["t2", "t3"] [] [] none

def exTasks : List TPTask := [exTask1, exTask2, exTask3, exTask4]

/-- The instance state after the first run of the four-task example. -/
def exStateAfter : RunnerState := (arun initState exTasks).state

/-- t3 redefined to succeed, resubmitted alone as failed_tasks() directs. -/
def exFunc3Good : TaskFun := fun _ _ => Except.ok (Value.int 30)

def exTask3Good : TPTask := TPTask.mk (some "t3") "work3" exFunc3Good ["t1"] [] [] none

/-- The dependency relation contains a cycle: a nonempty set of names each
of which lists another member of the set among its dependencies. -/
def HasCycleSet (tdm : Dict (List String)) : Prop :=
  ∃ S : List String, S ≠ [] ∧ ∀ n ∈ S, ∃ m ∈ S, m ∈ (Dict.find? tdm n).getD []

/-- Keys of _failed_tasks and of task_errors agree (claim C9 invariant). -/
def keysAligned (st : RunnerState) : Prop :=
  Dict.keys st.failedTasks = Dict.keys st.taskErrors

/-
Further concrete task sets used by the remaining claims.
-/

def c3Task : TPTask := TPTask.mk (some "a") "fa" exFunc1 [] [] [] none

def c4Func : TaskFun := fun _ _ => Except.ok (Value.int 0)

def c4Task : TPTask := TPTask.mk (some "a") "fa" c4Func ["d1"] [Value.int 9]
  [("d1", Value.str "override"), ("x", Value.int 7)] none

def c4St : RunnerState := RunnerState.mk [] [("d1", Value.int 1)] []

def c4Tfm : Dict TaskFun := [("a", c4Func)]

def c4Tdm : Dict (List String) := [("a", ["d1"])]

def c4Tm : Dict TPTask := [("a", c4Task)]

def c4Inv : Invocation := Invocation.mk "a" c4Func ["d1"] [Value.int 9]
  [("d1", Value.str "override"), ("x", Value.int 7)]

def c5FuncXY : TaskFun := fun _ _ => Except.ok (Value.int 10)

def c5FuncXZ : TaskFun := fun _ _ => Except.ok (Value.int 20)

def c5FuncNoKey : TaskFun := fun _ _ => Except.ok (Value.int 30)

def c5TaskXY : TPTask := TPTask.mk (some "xy") "fxy" c5FuncXY [] [] [] (some "x.y")

def c5TaskXZ : TPTask := TPTask.mk (some "xz") "fxz" c5FuncXZ [] [] [] (some "x.z")

def c5TaskNoKey : TPTask := TPTask.mk (some "nk") "fnk" c5FuncNoKey [] [] [] none

def c5Tasks : List TPTask := [c5TaskXY, c5TaskXZ, c5TaskNoKey]

def cycTaskA : TPTask := TPTask.mk (some "a") "fa" exFunc1 ["b"] [] [] none

def cycTaskB : TPTask := TPTask.mk (some "b") "fb" exFunc1 ["a"] [] [] none

def cycTm : Dict TPTask := [("a", cycTaskA), ("b", cycTaskB)]

def cycTfm : Dict TaskFun := [("a", exFunc1), ("b", exFunc1)]

def cycTdm : Dict (List String) := [("a", ["b"]), ("b", ["a"])]

def dupTaskA : TPTask := TPTask.mk (some "dup") "fa" exFunc1 [] [] [] none

def dupTaskB : TPTask := TPTask.mk (some "dup") "fb" exFunc4 [] [] [] none

def c10Func : TaskFun := fun _ _ => Except.ok (Value.int 7)

def c10TaskEmpty : TPTask := TPTask.mk (some "") "myfunc" c10Func [] [] [] (some "out")

def c10TaskNone : TPTask := TPTask.mk none "myfunc" c10Func [] [] [] (some "out")


/-
Association-list lemmas for the dict model.
-/

theorem Dict.find?_append_of_some {α : Type} {a : Dict α} (b : Dict α) {k : String} {v : α}
    (h : Dict.find? a k = some v) : Dict.find? (a ++ b) k = some v := by
  induction a with
  | nil => simp [Dict.find?] at h
  | cons p rest ih =>
    obtain ⟨k0, v0⟩ := p
    by_cases h0 : k0 = k
    · simp [Dict.find?, h0] at h ⊢
      exact h
    · simp [Dict.find?, h0] at h ⊢
      exact ih h

theorem Dict.find?_append_of_none {α : Type} {a : Dict α} (b : Dict α) {k : String}
    (h : Dict.find? a k = none) : Dict.find? (a ++ b) k = Dict.find? b k := by
  induction a with
  | nil => simp
  | cons p rest ih =>
    obtain ⟨k0, v0⟩ := p
    by_cases h0 : k0 = k
    · simp [Dict.find?, h0] at h
    · simp [Dict.find?, h0] at h ⊢
      exact ih h

theorem Dict.find?_replace {α : Type} (d : Dict α) (key : String) (v : α) (k' : String) :
    Dict.find? (d.map (fun p => if p.1 = key then (key, v) else p)) k' =
      if key = k' then (if Dict.containsKey d key then some v else none)
      else Dict.find? d k' := by
  induction d with
  | nil => simp [Dict.find?, Dict.containsKey]
  | cons p rest ih =>
    obtain ⟨k0, v0⟩ := p
    by_cases h0 : k0 = key
    · subst h0
      rw [show List.map (fun p => if p.1 = k0 then (k0, v) else p) ((k0, v0) :: rest) =
        (k0, v) :: List.map (fun p => if p.1 = k0 then (k0, v) else p) rest from by simp]
      by_cases h1 : k0 = k'
      · subst h1
        simp [Dict.find?, Dict.containsKey]
      · simp [Dict.find?, h1, ih, Dict.containsKey]
    · rw [show List.map (fun p => if p.1 = key then (key, v) else p) ((k0, v0) :: rest) =
        (k0, v0) :: List.map (fun p => if p.1 = key then (key, v) else p) rest from by simp [h0]]
      have h0' : key ≠ k0 := Ne.symm h0
      by_cases h1 : k0 = k'
      · subst h1
        simp [Dict.find?, h0']
      · simp [Dict.find?, h0, h0', h1, ih, Dict.containsKey]

theorem Dict.find?_insert {α : Type} (d : Dict α) (key : String) (v : α) (k' : String) :
    Dict.find? (Dict.insert d key v) k' = if key = k' then some v else Dict.find? d k' := by
  unfold Dict.insert
  by_cases hc : Dict.containsKey d key
  · simp [hc, Dict.find?_replace]
  · simp only [hc, if_false, Bool.false_eq_true]
    have hnone : Dict.find? d key = none := by
      unfold Dict.containsKey at hc
      cases h : Dict.find? d key with
      | none => rfl
      | some w => rw [h] at hc; simp at hc
    by_cases h1 : key = k'
    · subst h1
      rw [Dict.find?_append_of_none _ hnone]
      simp [Dict.find?, hnone]
    · cases h : Dict.find? d k' with
      | none =>
        rw [Dict.find?_append_of_none _ h]
        simp [Dict.find?, h1, h]
      | some w =>
        rw [Dict.find?_append_of_some _ h]
        simp [h1]

theorem Dict.find?_erase {α : Type} (d : Dict α) (key k' : String) :
    Dict.find? (Dict.erase d key) k' = if key = k' then none else Dict.find? d k' := by
  induction d with
  | nil => simp [Dict.erase, Dict.find?]
  | cons p rest ih =>
    obtain ⟨k0, v0⟩ := p
    by_cases h0 : k0 = key
    · subst h0
      have h0' : (k0 != k0) = false := by simp
      simp only [Dict.erase, List.filter_cons, h0', if_false, Bool.false_eq_true]
      rw [show (List.filter (fun p => p.1 != k0) rest) = Dict.erase rest k0 from rfl, ih]
      by_cases h1 : k0 = k'
      · simp [h1]
      · simp [Dict.find?, h1]
    · have h0' : (k0 != key) = true := by simp [h0]
      simp only [Dict.erase, List.filter_cons, h0', if_true]
      by_cases h1 : k0 = k'
      · subst h1
        have : key ≠ k0 := fun h => h0 h.symm
        simp [Dict.find?, this]
      · simp only [Dict.find?, h1, if_false]
        rw [show (List.filter (fun p => p.1 != key) rest) = Dict.erase rest key from rfl, ih]

theorem Dict.keys_insert {α : Type} (d : Dict α) (key : String) (v : α) :
    Dict.keys (Dict.insert d key v) =
      if Dict.containsKey d key then Dict.keys d else Dict.keys d ++ [key] := by
  unfold Dict.insert
  by_cases hc : Dict.containsKey d key
  · simp only [hc, if_true]
    unfold Dict.keys
    rw [List.map_map]
    apply List.map_congr_left
    intro p _
    by_cases hp : p.1 = key
    · simp [hp]
    · simp [hp]
  · simp [hc, Dict.keys]

theorem Dict.keys_erase {α : Type} (d : Dict α) (key : String) :
    Dict.keys (Dict.erase d key) = (Dict.keys d).filter (fun x => x != key) := by
  induction d with
  | nil => simp [Dict.erase, Dict.keys]
  | cons p rest ih =>
    obtain ⟨k0, v0⟩ := p
    by_cases h0 : (k0 != key) = true
    · simp only [Dict.erase, List.filter_cons, h0, if_true, Dict.keys, List.map_cons]
      rw [show (List.filter (fun p => p.1 != key) rest).map (fun p => p.1) =
        Dict.keys (Dict.erase rest key) from rfl, ih]
      simp [Dict.keys]
    · simp only [Dict.erase, List.filter_cons, h0, if_false, Bool.false_eq_true]
      rw [show (List.filter (fun p => p.1 != key) rest) = Dict.erase rest key from rfl, ih]
      simp only [Bool.not_eq_true] at h0
      simp [Dict.keys, h0]

theorem Dict.isSome_find?_iff {α : Type} (d : Dict α) (k : String) :
    (Dict.find? d k).isSome = true ↔ k ∈ Dict.keys d := by
  induction d with
  | nil => simp [Dict.find?, Dict.keys]
  | cons p rest ih =>
    obtain ⟨k0, v0⟩ := p
    by_cases h0 : k0 = k
    · simp [Dict.find?, Dict.keys, h0]
    · simp [Dict.find?, Dict.keys, h0, ih, Ne.symm h0]

theorem Dict.containsKey_iff {α : Type} (d : Dict α) (k : String) :
    Dict.containsKey d k = true ↔ k ∈ Dict.keys d :=
  Dict.isSome_find?_iff d k

theorem Dict.find?_eq_none_of_not_mem {α : Type} {d : Dict α} {k : String}
    (h : ¬ k ∈ Dict.keys d) : Dict.find? d k = none := by
  cases hf : Dict.find? d k with
  | none => rfl
  | some v =>
    exact absurd ((Dict.isSome_find?_iff d k).mp (by simp [hf])) h

theorem dictMerge_find?_of_not_mem {α : Type} (b : Dict α) {k : String}
    (h : ¬ k ∈ Dict.keys b) (a : Dict α) :
    Dict.find? (dictMerge a b) k = Dict.find? a k := by
  induction b generalizing a with
  | nil => rfl
  | cons p rest ih =>
    obtain ⟨k0, v0⟩ := p
    simp only [Dict.keys, List.map_cons, List.mem_cons] at h
    push_neg at h
    rw [show dictMerge a ((k0, v0) :: rest) = dictMerge (Dict.insert a k0 v0) rest from rfl]
    rw [ih (by simpa [Dict.keys] using h.2), Dict.find?_insert]
    simp [Ne.symm h.1]

theorem dictMerge_find?_of_some {α : Type} (b : Dict α) {k : String} {v : α}
    (hnd : (Dict.keys b).Nodup) (h : Dict.find? b k = some v) (a : Dict α) :
    Dict.find? (dictMerge a b) k = some v := by
  induction b generalizing a with
  | nil => simp [Dict.find?] at h
  | cons p rest ih =>
    obtain ⟨k0, v0⟩ := p
    simp only [Dict.keys, List.map_cons, List.nodup_cons] at hnd
    rw [show dictMerge a ((k0, v0) :: rest) = dictMerge (Dict.insert a k0 v0) rest from rfl]
    by_cases h0 : k0 = k
    · subst h0
      have hv : v0 = v := by simpa [Dict.find?] using h
      subst hv
      rw [dictMerge_find?_of_not_mem rest (by simpa [Dict.keys] using hnd.1), Dict.find?_insert]
      simp
    · simp only [Dict.find?, h0, if_false] at h
      exact ih hnd.2 h (Dict.insert a k0 v0)

theorem dictMerge_find?_of_none {α : Type} (b : Dict α) {k : String}
    (h : Dict.find? b k = none) (a : Dict α) :
    Dict.find? (dictMerge a b) k = Dict.find? a k := by
  apply dictMerge_find?_of_not_mem
  intro hmem
  have := (Dict.isSome_find?_iff b k).mpr hmem
  rw [h] at this
  simp at this

/-
Characterisation of dependency binding and wave preparation.
-/

theorem bindDepsAux_ok {results : Dict Value} :
    ∀ (deps : List String) (acc m : Dict Value),
      bindDepsAux results acc deps = Except.ok m →
      (∀ k, k ∈ deps → Dict.find? m k = Dict.find? results k) ∧
      (∀ k, ¬ k ∈ deps → Dict.find? m k = Dict.find? acc k) ∧
      (∀ k, k ∈ deps → (Dict.find? results k).isSome = true) := by
  intro deps
  induction deps with
  | nil =>
    intro acc m h
    simp only [bindDepsAux] at h
    cases h
    exact ⟨fun k hk => absurd hk (List.not_mem_nil k), fun k _ => rfl,
      fun k hk => absurd hk (List.not_mem_nil k)⟩
  | cons dep rest ih =>
    intro acc m h
    simp only [bindDepsAux] at h
    cases hf : Dict.find? results dep with
    | none => rw [hf] at h; cases h
    | some v =>
      rw [hf] at h
      obtain ⟨ih1, ih2, ih3⟩ := ih (Dict.insert acc dep v) m h
      refine ⟨?_, ?_, ?_⟩
      · intro k hk
        by_cases hr : k ∈ rest
        · exact ih1 k hr
        · have hkd : k = dep := by
            rcases List.mem_cons.mp hk with h1 | h1
            · exact h1
            · exact absurd h1 hr
          subst hkd
          rw [ih2 k hr, Dict.find?_insert]
          simp [hf]
      · intro k hk
        have hkd : ¬ k = dep := fun h1 => hk (h1 ▸ List.mem_cons_self dep rest)
        have hkr : ¬ k ∈ rest := fun h1 => hk (List.mem_cons_of_mem dep h1)
        rw [ih2 k hkr, Dict.find?_insert]
        simp [Ne.symm hkd]
      · intro k hk
        rcases List.mem_cons.mp hk with h1 | h1
        · subst h1; simp [hf]
        · exact ih3 k h1

theorem prepareOne_ok {st : RunnerState} {tfm : Dict TaskFun} {tdm : Dict (List String)}
    {tm : Dict TPTask} {nm : String} {inv : Invocation}
    (h : prepareOne st tfm tdm tm nm = Except.ok inv) :
    ∃ func task depres,
      Dict.find? tfm nm = some func ∧
      Dict.find? tm nm = some task ∧
      bindDeps st.taskResults ((Dict.find? tdm nm).getD []) = Except.ok depres ∧
      inv = Invocation.mk nm func ((Dict.find? tdm nm).getD []) task.args
        (dictMerge depres task.kwargs) := by
  unfold prepareOne at h
  cases hf : Dict.find? tfm nm with
  | none => rw [hf] at h; cases h
  | some func =>
    rw [hf] at h
    cases hb : bindDeps st.taskResults ((Dict.find? tdm nm).getD []) with
    | error e => rw [hb] at h; cases h
    | ok depres =>
      rw [hb] at h
      cases ht : Dict.find? tm nm with
      | none => rw [ht] at h; cases h
      | some task =>
        rw [ht] at h
        cases h
        exact ⟨func, task, depres, rfl, rfl, rfl, rfl⟩

theorem prepareOne_deps_ready {st : RunnerState} {tfm : Dict TaskFun}
    {tdm : Dict (List String)} {tm : Dict TPTask} {nm : String} {inv : Invocation}
    (h : prepareOne st tfm tdm tm nm = Except.ok inv) :
    ∀ dep ∈ inv.deps, (Dict.find? st.taskResults dep).isSome = true := by
  obtain ⟨func, task, depres, _, _, hb, hinv⟩ := prepareOne_ok h
  subst hinv
  intro dep hdep
  exact (bindDepsAux_ok _ [] depres hb).2.2 dep hdep

theorem prepareWave_deps_ready {st : RunnerState} {tfm : Dict TaskFun}
    {tdm : Dict (List String)} {tm : Dict TPTask} :
    ∀ (ready : List String) (invs : List Invocation),
      prepareWave st tfm tdm tm ready = Except.ok invs →
      ∀ inv ∈ invs, ∀ dep ∈ inv.deps, (Dict.find? st.taskResults dep).isSome = true := by
  intro ready
  induction ready with
  | nil =>
    intro invs h
    simp only [prepareWave] at h
    cases h
    intro inv hinv
    exact absurd hinv (List.not_mem_nil inv)
  | cons nm rest ih =>
    intro invs h
    simp only [prepareWave] at h
    cases h1 : prepareOne st tfm tdm tm nm with
    | error e => rw [h1] at h; cases h
    | ok inv0 =>
      rw [h1] at h
      cases h2 : prepareWave st tfm tdm tm rest with
      | error e => rw [h2] at h; cases h
      | ok invs0 =>
        rw [h2] at h
        cases h
        intro inv hinv
        rcases List.mem_cons.mp hinv with hh | hh
        · subst hh; exact prepareOne_deps_ready h1
        · exact ih invs0 h2 inv hh

/-
Keys of _failed_tasks and task_errors stay aligned (for claim C9).
-/

theorem containsKey_congr {α β : Type} {d1 : Dict α} {d2 : Dict β}
    (h : Dict.keys d1 = Dict.keys d2) (k : String) :
    Dict.containsKey d1 k = Dict.containsKey d2 k := by
  have h1 := Dict.containsKey_iff d1 k
  rw [h, ← Dict.containsKey_iff d2 k] at h1
  exact Bool.eq_iff_iff.mpr h1

theorem keysAligned_recordOne {st : RunnerState} (h : keysAligned st) (nm : String)
    (task : TPTask) (outcome : Except PyError Value) :
    keysAligned (recordOne st nm task outcome) := by
  cases outcome with
  | error e =>
    show Dict.keys (Dict.insert st.failedTasks nm task) =
      Dict.keys (Dict.insert st.taskErrors nm e)
    rw [Dict.keys_insert, Dict.keys_insert, h, containsKey_congr h nm]
  | ok v =>
    show Dict.keys (Dict.erase st.failedTasks nm) = Dict.keys (Dict.erase st.taskErrors nm)
    rw [Dict.keys_erase, Dict.keys_erase, h]

theorem keysAligned_setResults (tm : Dict TPTask) :
    ∀ (pairs : List (String × Except PyError Value)) (st : RunnerState),
      keysAligned st → keysAligned (setResults st tm pairs).1 := by
  intro pairs
  induction pairs with
  | nil => intro st h; exact h
  | cons p rest ih =>
    intro st h
    obtain ⟨nm, outcome⟩ := p
    simp only [setResults]
    cases hf : Dict.find? tm nm with
    | none => exact h
    | some task => exact ih (recordOne st nm task outcome) (keysAligned_recordOne h nm task outcome)

theorem keysAligned_runWaves (tdm : Dict (List String)) (tfm : Dict TaskFun) (tm : Dict TPTask) :
    ∀ (fuel : Nat) (st : RunnerState) (done : List String) (log : List LogEntry),
      keysAligned st → keysAligned (runWaves tdm tfm tm fuel st done log).state := by
  intro fuel
  induction fuel with
  | zero => intro st done log h; exact h
  | succ fuel ih =>
    intro st done log h
    simp only [runWaves]
    by_cases hready : (readyWave tdm done).isEmpty
    · simp only [hready, if_true]; exact h
    · simp only [hready, if_false, Bool.false_eq_true]
      cases hw : prepareWave st tfm tdm tm (readyWave tdm done) with
      | error e => exact h
      | ok invs =>
        dsimp only
        rcases hs : setResults st tm (execInvs invs) with ⟨st', err⟩
        have hst' : keysAligned st' := by
          have h2 := keysAligned_setResults tm (execInvs invs) st h
          rw [hs] at h2
          exact h2
        cases err with
        | none => exact ih st' (done ++ readyWave tdm done) _ hst'
        | some e => exact hst'

theorem keysAligned_arun {st : RunnerState} (h : keysAligned st) (tasks : List TPTask) :
    keysAligned (arun st tasks).state := by
  unfold arun
  cases hm : mapTasks tasks with
  | error e => exact h
  | ok maps =>
    obtain ⟨tm, tfm, tdm⟩ := maps
    by_cases hc : hasCycle tdm
    · simp only [hc, if_true]; exact h
    · simp only [hc, if_false, Bool.false_eq_true]
      rcases hw : runWaves tdm tfm tm (allNodes tdm).length st [] [] with ⟨st', log, err⟩
      have hst' : keysAligned st' := by
        have h2 := keysAligned_runWaves tdm tfm tm (allNodes tdm).length st [] [] h
        rw [hw] at h2
        exact h2
      cases err with
      | some e => exact hst'
      | none =>
        dsimp only
        cases hf : formatResults st' tm with
        | error e => exact hst'
        | ok fr => exact hst'

theorem keysAligned_applyOps : ∀ (ops : List RunnerOp) (st : RunnerState),
    keysAligned st → keysAligned (applyOps st ops) := by
  intro ops
  induction ops with
  | nil => intro st h; exact h
  | cons op rest ih =>
    intro st h
    cases op with
    | runTasks tasks => exact ih (arun st tasks).state (keysAligned_arun h tasks)
    | resetOp => exact ih (resetRunner st) rfl

/-
Every logged invocation found its dependencies in task_results (claim C8).
-/

theorem runWaves_log_good (tdm : Dict (List String)) (tfm : Dict TaskFun) (tm : Dict TPTask) :
    ∀ (fuel : Nat) (st : RunnerState) (done : List String) (log : List LogEntry),
      (∀ e ∈ log, ∀ dep ∈ e.deps, (Dict.find? e.resultsAtStart dep).isSome = true) →
      ∀ e ∈ (runWaves tdm tfm tm fuel st done log).log,
        ∀ dep ∈ e.deps, (Dict.find? e.resultsAtStart dep).isSome = true := by
  intro fuel
  induction fuel with
  | zero => intro st done log hlog; exact hlog
  | succ fuel ih =>
    intro st done log hlog
    simp only [runWaves]
    by_cases hready : (readyWave tdm done).isEmpty
    · simp only [hready, if_true]; exact hlog
    · simp only [hready, if_false, Bool.false_eq_true]
      cases hw : prepareWave st tfm tdm tm (readyWave tdm done) with
      | error e => exact hlog
      | ok invs =>
        dsimp only
        have hlog' : ∀ e ∈ log ++ invs.map
            (fun inv => LogEntry.mk inv.name inv.deps st.taskResults),
            ∀ dep ∈ e.deps, (Dict.find? e.resultsAtStart dep).isSome = true := by
          intro e he
          rcases List.mem_append.mp he with h1 | h1
          · exact hlog e h1
          · rcases List.mem_map.mp h1 with ⟨inv, hinv, hei⟩
            subst hei
            intro dep hdep
            exact prepareWave_deps_ready (readyWave tdm done) invs hw inv hinv dep hdep
        rcases hs : setResults st tm (execInvs invs) with ⟨st', err⟩
        cases err with
        | none => exact ih st' (done ++ readyWave tdm done) _ hlog'
        | some e => exact hlog'

/-
Success of the map-building step forces pairwise distinct resolved names
(claim C7).
-/

theorem Dict.containsKey_insert {α : Type} (d : Dict α) (k : String) (v : α) (k' : String) :
    Dict.containsKey (Dict.insert d k v) k' = (decide (k = k') || Dict.containsKey d k') := by
  unfold Dict.containsKey
  rw [Dict.find?_insert]
  by_cases h : k = k'
  · simp [h]
  · simp [h]

theorem mapTasksAux_ok_nodup :
    ∀ (tasks : List TPTask) (tm : Dict TPTask) (tfm : Dict TaskFun)
      (tdm : Dict (List String)) (r : Dict TPTask × Dict TaskFun × Dict (List String)),
      mapTasksAux tm tfm tdm tasks = Except.ok r →
      (tasks.map resolveName).Nodup ∧
      ∀ t ∈ tasks, Dict.containsKey tm (resolveName t) = false := by
  intro tasks
  induction tasks with
  | nil =>
    intro tm tfm tdm r h
    exact ⟨List.nodup_nil, fun t ht => absurd ht (List.not_mem_nil t)⟩
  | cons task rest ih =>
    intro tm tfm tdm r h
    simp only [mapTasksAux] at h
    by_cases hc : Dict.containsKey tm (resolveName task) = true
    · rw [if_pos hc] at h; cases h
    · rw [if_neg hc] at h
      obtain ⟨hnd, hfresh⟩ := ih (Dict.insert tm (resolveName task) task)
        (Dict.insert tfm (resolveName task) task.func)
        (Dict.insert tdm (resolveName task) task.deps) r h
      constructor
      · simp only [List.map_cons, List.nodup_cons]
        constructor
        · intro hmem
          rcases List.mem_map.mp hmem with ⟨t, ht, hname⟩
          have hself : Dict.containsKey (Dict.insert tm (resolveName task) task)
              (resolveName t) = true := by
            rw [hname, Dict.containsKey_insert]
            simp
          rw [hfresh t ht] at hself
          cases hself
        · exact hnd
      · intro t ht
        rcases List.mem_cons.mp ht with h1 | h1
        · subst h1
          simpa using hc
        · have h2 := hfresh t h1
          rw [Dict.containsKey_insert] at h2
          rcases Bool.or_eq_false_iff.mp h2 with ⟨_, h3⟩
          exact h3

theorem mapTasksAux_error_shape :
    ∀ (tasks : List TPTask) (tm : Dict TPTask) (tfm : Dict TaskFun)
      (tdm : Dict (List String)) (e : PyError),
      mapTasksAux tm tfm tdm tasks = Except.error e →
      ∃ nm, e = PyError.valueError nm := by
  intro tasks
  induction tasks with
  | nil => intro tm tfm tdm e h; cases h
  | cons task rest ih =>
    intro tm tfm tdm e h
    simp only [mapTasksAux] at h
    by_cases hc : Dict.containsKey tm (resolveName task) = true
    · rw [if_pos hc] at h
      cases h
      exact ⟨resolveName task, rfl⟩
    · rw [if_neg hc] at h
      exact ih _ _ _ e h

theorem mapTasks_error_of_dup {tasks : List TPTask}
    (h : ¬ (tasks.map resolveName).Nodup) :
    ∃ nm, mapTasks tasks = Except.error (PyError.valueError nm) := by
  cases hm : mapTasks tasks with
  | ok r => exact absurd (mapTasksAux_ok_nodup tasks [] [] [] r hm).1 h
  | error e =>
    obtain ⟨nm, he⟩ := mapTasksAux_error_shape tasks [] [] [] e hm
    subst he
    exact ⟨nm, rfl⟩

/-
A dependency relation with a set of nodes each having a predecessor in the
set never saturates, so prepare reports a cycle (claim C6).
-/

theorem contains_iff_mem (l : List String) (x : String) : l.contains x = true ↔ x ∈ l := by
  simp

theorem mem_readyWave {tdm : Dict (List String)} {done : List String} {n : String}
    (h : n ∈ readyWave tdm done) :
    ((Dict.find? tdm n).getD []).all (fun m => done.contains m) = true := by
  unfold readyWave at h
  have h2 := (List.mem_filter.mp h).2
  simp only [Bool.and_eq_true] at h2
  exact h2.2

theorem kahnSaturate_avoids {tdm : Dict (List String)} {S : List String}
    (hS : ∀ n ∈ S, ∃ m ∈ S, m ∈ (Dict.find? tdm n).getD []) :
    ∀ (fuel : Nat) (done : List String), (∀ x ∈ S, ¬ x ∈ done) →
      ∀ x ∈ S, ¬ x ∈ kahnSaturate tdm fuel done := by
  intro fuel
  induction fuel with
  | zero => intro done h; exact h
  | succ fuel ih =>
    intro done hdone
    simp only [kahnSaturate]
    by_cases hready : (readyWave tdm done).isEmpty
    · simp only [hready, if_true]; exact hdone
    · simp only [hready, if_false, Bool.false_eq_true]
      apply ih
      intro x hx hmem
      rcases List.mem_append.mp hmem with h1 | h1
      · exact hdone x hx h1
      · obtain ⟨m, hmS, hmdep⟩ := hS x hx
        have hall := mem_readyWave h1
        have hmdone : m ∈ done :=
          (contains_iff_mem done m).mp (List.all_eq_true.mp hall m hmdep)
        exact hdone m hmS hmdone

theorem mem_addUnique_self (acc : List String) (x : String) : x ∈ addUnique acc x := by
  unfold addUnique
  by_cases h : acc.contains x = true
  · rw [if_pos h]; exact (contains_iff_mem acc x).mp h
  · rw [if_neg h]; exact List.mem_append.mpr (Or.inr (List.mem_cons_self x []))

theorem mem_addUnique_of_mem (acc : List String) (y x : String) (h : x ∈ acc) :
    x ∈ addUnique acc y := by
  unfold addUnique
  by_cases hc : acc.contains y = true
  · rw [if_pos hc]; exact h
  · rw [if_neg hc]; exact List.mem_append.mpr (Or.inl h)

theorem mem_foldl_addUnique (l : List String) :
    ∀ (acc : List String) (x : String), x ∈ acc → x ∈ l.foldl addUnique acc := by
  induction l with
  | nil => intro acc x h; exact h
  | cons y rest ih =>
    intro acc x h
    exact ih (addUnique acc y) x (mem_addUnique_of_mem acc y x h)

theorem mem_allNodesAux_mono :
    ∀ (tdm : Dict (List String)) (acc : List String) (x : String),
      x ∈ acc → x ∈ allNodesAux acc tdm := by
  intro tdm
  induction tdm with
  | nil => intro acc x h; exact h
  | cons p rest ih =>
    intro acc x h
    obtain ⟨k, deps⟩ := p
    exact ih _ x (mem_foldl_addUnique deps _ x (mem_addUnique_of_mem acc k x h))

theorem mem_allNodesAux_of_find? :
    ∀ (tdm : Dict (List String)) (acc : List String) (n : String),
      (Dict.find? tdm n).isSome = true → n ∈ allNodesAux acc tdm := by
  intro tdm
  induction tdm with
  | nil => intro acc n h; simp [Dict.find?] at h
  | cons p rest ih =>
    intro acc n h
    obtain ⟨k, deps⟩ := p
    by_cases hk : k = n
    · subst hk
      exact mem_allNodesAux_mono rest _ k
        (mem_foldl_addUnique deps _ k (mem_addUnique_self acc k))
    · simp only [Dict.find?, hk, if_false] at h
      exact ih _ n h

theorem hasCycle_true_of_cycleSet {tdm : Dict (List String)} (h : HasCycleSet tdm) :
    hasCycle tdm = true := by
  obtain ⟨S, hne, hS⟩ := h
  obtain ⟨n, hn⟩ := List.exists_mem_of_ne_nil S hne
  obtain ⟨m, hmS, hmdep⟩ := hS n hn
  have hfind : (Dict.find? tdm n).isSome = true := by
    cases hf : Dict.find? tdm n with
    | none => rw [hf] at hmdep; simp at hmdep
    | some l => simp
  have hnode : n ∈ allNodes tdm := mem_allNodesAux_of_find? tdm [] n hfind
  have havoid := kahnSaturate_avoids hS (allNodes tdm).length []
    (fun x _ hmem => absurd hmem (List.not_mem_nil x)) n hn
  cases hall : (allNodes tdm).all
      (fun n2 => (kahnSaturate tdm (allNodes tdm).length []).contains n2) with
  | false => unfold hasCycle; rw [hall]; rfl
  | true =>
    exfalso
    have hcont := List.all_eq_true.mp hall n hnode
    exact havoid ((contains_iff_mem _ _).mp hcont)

/-- Claim C1, evaluated at the spec's own four-task example.  The claim
says run returns normally with t4 absent from both mappings; the code
instead raises KeyError for the failed dependency t3: after t3 fails,
ts.done still marks it done, t4 becomes ready in wave three, and the
dependency lookup task_results of t3 raises before t4 is ever launched.
The theorem records exactly what the implementation does: the run ends
with keyError t3, results hold t1 and t2, errors hold t3, t4 is absent
from both mappings and is never invoked. -/
theorem c1_failed_dependency_crashes_run :
    (arun initState exTasks).result = Except.error (PyError.keyError "t3") ∧
    (arun initState exTasks).state.taskResults = [("t1", Value.int 1), ("t2", Value.int 2)] ∧
    Dict.find? (arun initState exTasks).state.taskErrors "t3" =
      some (PyError.taskError "boom") ∧
    Dict.find? (arun initState exTasks).state.taskResults "t4" = none ∧
    Dict.find? (arun initState exTasks).state.taskErrors "t4" = none ∧
    (arun initState exTasks).log.map (fun e => e.name) = ["t1", "t2", "t3"] :=
  ⟨rfl, rfl, rfl, rfl, rfl, rfl⟩

/-- Claim C2, evaluated at the spec's retry example.  Resubmitting the
failed task t3 alone (now able to succeed) on the same instance does not
complete: the TopologicalSorter adds the absent dependency t1 as an
implicit zero-predecessor node, returns it ready, and the func-map lookup
for t1 raises KeyError before anything runs.  No task is invoked, t3's
value is never recorded, and the persistent store is left untouched. -/
theorem c2_retry_crashes_on_external_dependency :
    (arun exStateAfter [exTask3Good]).result = Except.error (PyError.keyError "t1") ∧
    (arun exStateAfter [exTask3Good]).log = [] ∧
    Dict.find? (arun exStateAfter [exTask3Good]).state.taskResults "t3" = none ∧
    (arun exStateAfter [exTask3Good]).state.taskResults =
      [("t1", Value.int 1), ("t2", Value.int 2)] :=
  ⟨rfl, rfl, rfl, rfl⟩

/-- Claim C3 counterexample: recording a success for a and then a failure
for a leaves a present in both task_results and task_errors, because the
failure branch of _set_results never removes the stale results entry.
This refutes the claimed disjointness of the two mappings. -/
theorem c3_counterexample :
    Dict.find? ((recordOne (recordOne initState "a" c3Task (Except.ok (Value.int 1)))
      "a" c3Task (Except.error (PyError.taskError "late"))).taskResults) "a" =
        some (Value.int 1) ∧
    Dict.find? ((recordOne (recordOne initState "a" c3Task (Except.ok (Value.int 1)))
      "a" c3Task (Except.error (PyError.taskError "late"))).taskErrors) "a" =
        some (PyError.taskError "late") :=
  ⟨rfl, rfl⟩

/-- Claim C3 as amended: recording a failure stores it in errors and
leaves task_results unchanged (no stale entry is removed); recording a
success stores the value in results and removes any stale errors entry.
Disjointness therefore holds except for a name whose recorded success is
followed by a recorded failure. -/
theorem c3_amended_record_behaviour (st : RunnerState) (nm : String) (task : TPTask)
    (e : PyError) (v : Value) :
    (recordOne st nm task (Except.error e)).taskResults = st.taskResults ∧
    (recordOne st nm task (Except.error e)).taskErrors = Dict.insert st.taskErrors nm e ∧
    (recordOne st nm task (Except.ok v)).taskResults = Dict.insert st.taskResults nm v ∧
    (recordOne st nm task (Except.ok v)).taskErrors = Dict.erase st.taskErrors nm :=
  ⟨rfl, rfl, rfl, rfl⟩

/-- Claim C4: a ready task's invocation uses exactly the task's declared
positional arguments, and keyword arguments formed by binding every
dependency name to its successful result value and overlaying the task's
own declared kwargs, with the declared kwargs winning on collision and
nothing else present. -/
theorem c4_invocation_arguments (st : RunnerState) (tfm : Dict TaskFun)
    (tdm : Dict (List String)) (tm : Dict TPTask) (nm : String) (inv : Invocation)
    (task : TPTask) (hprep : prepareOne st tfm tdm tm nm = Except.ok inv)
    (htask : Dict.find? tm nm = some task) (hnd : (Dict.keys task.kwargs).Nodup) :
    inv.args = task.args ∧
    inv.deps = (Dict.find? tdm nm).getD [] ∧
    (∀ k v, Dict.find? task.kwargs k = some v → Dict.find? inv.kwargs k = some v) ∧
    (∀ dep, dep ∈ inv.deps → Dict.find? task.kwargs dep = none →
      Dict.find? inv.kwargs dep = Dict.find? st.taskResults dep) ∧
    (∀ dep ∈ inv.deps, (Dict.find? st.taskResults dep).isSome = true) ∧
    (∀ k, Dict.find? task.kwargs k = none → ¬ k ∈ inv.deps →
      Dict.find? inv.kwargs k = none) := by
  obtain ⟨func, task', depres, hf, ht, hb, hinv⟩ := prepareOne_ok hprep
  rw [htask] at ht
  cases ht
  subst hinv
  obtain ⟨hb1, hb2, hb3⟩ := bindDepsAux_ok _ [] depres hb
  refine ⟨rfl, rfl, ?_, ?_, ?_, ?_⟩
  · intro k v hk
    exact dictMerge_find?_of_some task.kwargs hnd hk depres
  · intro dep hdep hnone
    show Dict.find? (dictMerge depres task.kwargs) dep = Dict.find? st.taskResults dep
    rw [dictMerge_find?_of_none task.kwargs hnone depres]
    exact hb1 dep hdep
  · intro dep hdep
    exact hb3 dep hdep
  · intro k hknone hkdeps
    show Dict.find? (dictMerge depres task.kwargs) k = none
    rw [dictMerge_find?_of_none task.kwargs hknone depres, hb2 k hkdeps]
    rfl

/-- Witness for claim C4 at a concrete ready task: the dependency d1 has
result 1, but the task also declares d1 among its kwargs, and the declared
value wins in the built invocation. -/
theorem c4_witness :
    Dict.find? c4Inv.kwargs "d1" = some (Value.str "override") :=
  (c4_invocation_arguments c4St c4Tfm c4Tdm c4Tm "a" c4Inv c4Task rfl rfl
    (by decide)).2.2.1 "d1" (Value.str "override") rfl

/-- Claim C5: format_results contributes nothing for a task without a
result key, writes along the dot-split path otherwise, and on the concrete
two-path example produces a single container x holding both leaves while
the flat store keeps every successful value, including the one omitted
from the aggregate. -/
theorem c5_result_aggregation :
    (∀ (tm : Dict TPTask) (fr : Dict Value) (nm : String) (v : Value) (task : TPTask),
      Dict.find? tm nm = some task → task.res_key = none →
      formatStep tm fr nm v = Except.ok fr) ∧
    (∀ (tm : Dict TPTask) (fr : Dict Value) (nm : String) (v : Value) (task : TPTask)
      (p : String), Dict.find? tm nm = some task → task.res_key = some p → ¬ p = "" →
      formatStep tm fr nm v = setPath fr (splitDot p) v) ∧
    (arun initState c5Tasks).result =
      Except.ok [("x", Value.dict [("y", Value.int 10), ("z", Value.int 20)])] ∧
    (arun initState c5Tasks).state.taskResults =
      [("xy", Value.int 10), ("xz", Value.int 20), ("nk", Value.int 30)] := by
  refine ⟨?_, ?_, rfl, rfl⟩
  · intro tm fr nm v task ht hk
    simp only [formatStep, ht, hk]
  · intro tm fr nm v task p ht hk hp
    simp only [formatStep, ht, hk, if_neg hp]

/-- Witness for claim C5: a concrete task whose spec has no result key
contributes nothing to the aggregate. -/
theorem c5_witness :
    formatStep [("nk", c5TaskNoKey)] [] "nk" (Value.int 0) = Except.ok [] :=
  c5_result_aggregation.1 [("nk", c5TaskNoKey)] [] "nk" (Value.int 0) c5TaskNoKey rfl rfl

/-- Claim C6: when the submitted dependency relation contains a cycle
(a nonempty set of names each depending on another member of the set),
arun raises CycleError from prepare, before any task executes, and the
instance state is returned unchanged with an empty invocation log. -/
theorem c6_cycle_fails_before_execution (st : RunnerState) (tasks : List TPTask)
    (tm : Dict TPTask) (tfm : Dict TaskFun) (tdm : Dict (List String))
    (hmap : mapTasks tasks = Except.ok (tm, tfm, tdm))
    (hcyc : HasCycleSet tdm) :
    arun st tasks = RunOutcome.mk st [] (Except.error PyError.cycleError) := by
  unfold arun
  rw [hmap]
  dsimp only
  rw [hasCycle_true_of_cycleSet hcyc]
  rfl

/-- Witness for claim C6: the two-task cycle a depends on b, b depends on
a fails with CycleError on a fresh instance, leaving it untouched. -/
theorem c6_witness :
    arun initState [cycTaskA, cycTaskB] =
      RunOutcome.mk initState [] (Except.error PyError.cycleError) :=
  c6_cycle_fails_before_execution initState [cycTaskA, cycTaskB] cycTm cycTfm cycTdm rfl
    ⟨["a", "b"], by decide, by decide⟩

/-- Claim C7: when two submitted specifications resolve to the same name
(declared name, or the function name when the declared name is falsy),
arun raises the duplicate-name ValueError during map building, before any
task executes, and returns the instance state unchanged with an empty
invocation log. -/
theorem c7_duplicate_names_fail (st : RunnerState) (tasks : List TPTask)
    (hdup : ¬ (tasks.map resolveName).Nodup) :
    ∃ nm, arun st tasks = RunOutcome.mk st [] (Except.error (PyError.valueError nm)) := by
  obtain ⟨nm, hm⟩ := mapTasks_error_of_dup hdup
  refine ⟨nm, ?_⟩
  unfold arun
  rw [hm]

/-- Witness for claim C7: two tasks both named dup fail validation on a
fresh instance. -/
theorem c7_witness :
    ∃ nm, arun initState [dupTaskA, dupTaskB] =
      RunOutcome.mk initState [] (Except.error (PyError.valueError nm)) :=
  c7_duplicate_names_fail initState [dupTaskA, dupTaskB] (by decide)

/-- Claim C8: in any run, a task's unit of work is launched only when
every dependency listed for it already has an entry in task_results (the
store of recorded successes): every logged invocation's dependency list is
fully resolvable in the results snapshot taken at launch time. -/
theorem c8_deps_succeed_before_invocation (st : RunnerState) (tasks : List TPTask) :
    ∀ e ∈ (arun st tasks).log, ∀ dep ∈ e.deps,
      (Dict.find? e.resultsAtStart dep).isSome = true := by
  unfold arun
  cases hm : mapTasks tasks with
  | error err => intro e he; exact absurd he (List.not_mem_nil e)
  | ok maps =>
    obtain ⟨tm, tfm, tdm⟩ := maps
    by_cases hc : hasCycle tdm
    · simp only [hc, if_true]
      intro e he
      exact absurd he (List.not_mem_nil e)
    · simp only [hc, if_false, Bool.false_eq_true]
      rcases hw : runWaves tdm tfm tm (allNodes tdm).length st [] [] with ⟨st', log, err⟩
      have hgood : ∀ e ∈ log, ∀ dep ∈ e.deps,
          (Dict.find? e.resultsAtStart dep).isSome = true := by
        have h2 := runWaves_log_good tdm tfm tm (allNodes tdm).length st [] []
          (fun e he => absurd he (List.not_mem_nil e))
        rw [hw] at h2
        exact h2
      cases err with
      | some e2 => exact hgood
      | none =>
        dsimp only
        cases hf : formatResults st' tm with
        | error e2 => exact hgood
        | ok fr => exact hgood

/-- Witness for claim C8 at the four-task example: the second logged
invocation is t2 with dependency t1, whose snapshot already maps t1 to 1. -/
theorem c8_witness :
    (Dict.find? (LogEntry.mk "t2" ["t1"] [("t1", Value.int 1)]).resultsAtStart "t1").isSome
      = true :=
  c8_deps_succeed_before_invocation initState exTasks
    (LogEntry.mk "t2" ["t1"] [("t1", Value.int 1)])
    (List.mem_cons_of_mem _ (List.mem_cons_self _ _)) "t1" (List.mem_cons_self _ _)

/-- Claim C9: after any sequence of run and reset operations on a fresh
instance, the key list of the internal failed-task mapping coincides with
the key list of task_errors, so failed_tasks returns exactly the specs of
the names currently recorded in errors. -/
theorem c9_failed_tasks_keys_match_errors (ops : List RunnerOp) :
    Dict.keys (applyOps initState ops).failedTasks =
      Dict.keys (applyOps initState ops).taskErrors :=
  keysAligned_applyOps ops initState rfl

/-- Claim C10: a declared name that is the empty string is falsy in
Python, so the task is keyed under its work function's name in the
name-to-spec mapping, the result store and the aggregate, exactly as if no
name had been declared. -/
theorem c10_empty_name_falls_back_to_function_name (t : TPTask) :
    resolveName (TPTask.mk (some "") t.funcName t.func t.deps t.args t.kwargs t.res_key)
      = t.funcName ∧
    resolveName (TPTask.mk none t.funcName t.func t.deps t.args t.kwargs t.res_key)
      = t.funcName ∧
    (mapTasks [c10TaskEmpty]).map (fun r => Dict.keys r.1) = Except.ok ["myfunc"] ∧
    (arun initState [c10TaskEmpty]).state.taskResults = [("myfunc", Value.int 7)] ∧
    (arun initState [c10TaskEmpty]).result = Except.ok [("out", Value.int 7)] ∧
    (arun initState [c10TaskEmpty]).result = (arun initState [c10TaskNone]).result ∧
    (arun initState [c10TaskEmpty]).state.taskResults =
      (arun initState [c10TaskNone]).state.taskResults :=
  ⟨rfl, rfl, rfl, rfl, rfl, rfl, rfl⟩
